import Mathlib

/-
Verification of the fastjsonschema library (`fastjsonschema/__init__.py`) against
its natural-language specification.

The repository snapshot contains only the public entry module
`fastjsonschema/__init__.py` (the functions `compile` and `write_code`, the
re-exported exception `JsonSchemaException`, and their docstrings) together with
a test stub.  The collaborating modules `exceptions.py`, `generator.py` and
`ref_resolver.py` are not part of the snapshot; every definition that stands in
for them is modelled from the specification and says so in its doc comment.
Machine-level aspects are embedded shallowly: JSON numbers appear as integers
(the only numerals the checked scenarios use), the Python file system is an
association list from filenames to file contents, and Python's bounded call
stack is an explicit fuel argument (exhaustion yields a RecursionError, exactly
as CPython would on an unboundedly self-referential schema).
-/

/-- JSON values.  Modelled from the spec: the data model of §3 — the values a
compiled validator receives: null, booleans, numbers, strings, arrays and
objects (objects keep their key order, as Python dicts do). -/
inductive JsonValue where
  | null : JsonValue
  | bool : Bool → JsonValue
  | num : Int → JsonValue
  | str : String → JsonValue
  | arr : List JsonValue → JsonValue
  | obj : List (String × JsonValue) → JsonValue
deriving Repr

/-- The seven runtime kinds a `type` keyword may name (spec §4.2, `type` row). -/
inductive JsonType where
  | null | boolean | number | integer | string | array | object
deriving DecidableEq, Repr

/-- Schema documents.  Modelled from the spec: §3 SchemaNode restricted to the
keyword families the checked claims exercise — `type`, `properties` (each
property carrying its sub-schema), `default`, and the root self-reference
`{"$ref": "#"}` of the recursive scenario. -/
inductive Schema where
  | ref : Schema
  | val : Option JsonType → List (String × Schema) → Option JsonValue → Schema

/-- The exception class of `fastjsonschema.exceptions`, re-exported by
`__init__.py` (line 48) and raised both when generation fails (line 132) and
when validation fails (docstring lines 80, 107, 128).  Modelled from the spec
for the structured payload: `DataValidationException{path, message}` (§4.4);
`excType` records the Python class name of the raised exception. -/
structure JsonSchemaException where
  excType : String
  message : String
  path : List String
deriving DecidableEq, Repr

/-- Constructor for errors raised as Python `JsonSchemaException`. -/
def jsonSchemaExc (message : String) (path : List String) : JsonSchemaException :=
  ⟨"JsonSchemaException", message, path⟩

/-- Name of a runtime kind as it appears in generated error messages. -/
def typeName : JsonType → String
  | .null => "null"
  | .boolean => "boolean"
  | .number => "number"
  | .integer => "integer"
  | .string => "string"
  | .array => "array"
  | .object => "object"

/-- Does a value's runtime kind satisfy a declared `type`?  Modelled from the
spec (§4.2 `type` row): integers satisfy a `number` declaration; with numbers
embedded as integers every number also satisfies `integer`. -/
def typeMatch : JsonType → JsonValue → Bool
  | .null, .null => true
  | .boolean, .bool _ => true
  | .number, .num _ => true
  | .integer, .num _ => true
  | .string, .str _ => true
  | .array, .arr _ => true
  | .object, .obj _ => true
  | _, _ => false

/- Structural equality on JSON values (needed because the nested inductive
does not admit a derived decidable equality). -/
mutual

def beqV : JsonValue → JsonValue → Bool
  | .null, .null => true
  | .bool a, .bool b => a == b
  | .num a, .num b => a == b
  | .str a, .str b => a == b
  | .arr xs, .arr ys => beqVs xs ys
  | .obj fs, .obj gs => beqFs fs gs
  | _, _ => false

def beqVs : List JsonValue → List JsonValue → Bool
  | [], [] => true
  | x :: xs, y :: ys => beqV x y && beqVs xs ys
  | _, _ => false

def beqFs : List (String × JsonValue) → List (String × JsonValue) → Bool
  | [], [] => true
  | (k, v) :: xs, (l, w) :: ys => k == l && beqV v w && beqFs xs ys
  | _, _ => false

end

/-- First binding of a key in an object's field list (Python dict lookup). -/
def lookupField (fields : List (String × JsonValue)) (k : String) : Option JsonValue :=
  match fields with
  | [] => none
  | (l, v) :: rest => if l == k then some v else lookupField rest k

/-- First binding of a key among the declared properties of a schema. -/
def lookupProp (props : List (String × Schema)) (k : String) : Option Schema :=
  match props with
  | [] => none
  | (l, s) :: rest => if l == k then some s else lookupProp rest k

/-- The `default` keyword of a schema node, if declared. -/
def defaultOf : Schema → Option JsonValue
  | .ref => none
  | .val _ _ d => d

/-- Default injection.  Modelled from the spec (§4.2 `default` row): for every
declared property whose key is absent from the object and whose sub-schema
declares a `default`, the default value is added before the per-property checks
run (the generated Python performs `data.setdefault(key, default)`). -/
def injectDefaults (props : List (String × Schema)) (fields : List (String × JsonValue)) :
    List (String × JsonValue) :=
  fields ++ props.filterMap (fun ks =>
    if (lookupField fields ks.1).isSome then none
    else (defaultOf ks.2).map (fun d => (ks.1, d)))

/-- Validate every field of an object with a per-key routine, rebuilding the
field list from the (possibly default-filled) results and stopping at the
first failure. -/
def mapFieldsM (f : String → JsonValue → Except JsonSchemaException JsonValue) :
    List (String × JsonValue) → Except JsonSchemaException (List (String × JsonValue))
  | [] => .ok []
  | (k, v) :: rest =>
      match f k v with
      | .error e => .error e
      | .ok v2 =>
          match mapFieldsM f rest with
          | .error e => .error e
          | .ok rest2 => .ok ((k, v2) :: rest2)

/-- The object-shape part of a generated routine (spec §4.2 object row and
`default` row): on an object, inject the declared defaults for absent keys and
validate every field that has a declared property sub-schema with `recur`, the
routine lookup for sub-schemas; on any other value the object keywords do not
apply and the value passes through. -/
def validObject
    (recur : Schema → List String → JsonValue → Except JsonSchemaException JsonValue)
    (props : List (String × Schema)) (path : List String) (v : JsonValue) :
    Except JsonSchemaException JsonValue :=
  match v with
  | .obj fields =>
      (mapFieldsM (fun k fv =>
        match lookupProp props k with
        | some sub => recur sub (path ++ [k]) fv
        | none => .ok fv) (injectDefaults props fields)).map .obj
  | _ => .ok v

/-- The compiled validation routine.  Modelled from the spec (§4.2, §4.4): a
routine takes a value and the error path from the root, checks `type` first,
then injects declared `default`s for absent object keys and recurses into the
declared property sub-schemas, returning the (possibly default-filled) value or
signalling the first violated constraint with its path.  `root` is the routine
of the root scope, which a `{"$ref": "#"}` node delegates to unchanged;
`fuel` is Python's bounded call stack, whose exhaustion is a `RecursionError`. -/
def validate (root : Schema) : Nat → Schema → List String → JsonValue →
    Except JsonSchemaException JsonValue
  | 0, _, path, _ => .error ⟨"RecursionError", "maximum recursion depth exceeded", path⟩
  | n + 1, .ref, path, v => validate root n root path v
  | n + 1, .val (some t) props _, path, v =>
      if typeMatch t v then validObject (validate root n) props path v
      else .error (jsonSchemaExc ("must be " ++ typeName t) path)
  | n + 1, .val none props _, path, v => validObject (validate root n) props path v

/-- `fastjsonschema.compile` (`__init__.py` lines 55-89): builds the resolver
and code generator for `definition` and returns the generated entry routine.
The returned artifact is the root routine applied to the value, with the root
itself in scope for recursive self-reference (the module passes no local state
"so it can recursively call itself", line 86). -/
def compile (definition : Schema) : Nat → JsonValue → Except JsonSchemaException JsonValue :=
  fun fuel v => validate definition fuel definition [] v

/-- `RefResolver.get_scope_name()` for the root scope (`__init__.py` lines 84,
135).  Modelled from the spec (§4.1 Naming): the generated identifier is
derived deterministically from the canonical (base URI, pointer path) pair of
the scope; the root scope of a bare document has the empty pointer path. -/
def get_scope_name (pointerPath : List String) : String :=
  "validate" ++ String.join (pointerPath.map (fun part => "_" ++ part))

/-- The entry-point identifier of a compiled definition: the generated name of
its root scope. -/
def entryName (_definition : Schema) : String :=
  get_scope_name []

/-- The Python file system, as an association list from filenames to contents. -/
def FileSys : Type := List (String × String)

/-- `os.path.exists` (`__init__.py` lines 46, 131). -/
def fsExists (fs : FileSys) (filename : String) : Bool :=
  (List.any fs (fun kv => kv.1 == filename))

/-- Contents of a file, if present. -/
def fsGet (fs : FileSys) (filename : String) : Option String :=
  (List.find? (fun kv => kv.1 == filename) fs).map (fun kv => kv.2)

/-- `open(filename, 'w')` followed by writing `content`: replaces any previous
binding of the filename. -/
def fsSet (fs : FileSys) (filename : String) (content : String) : FileSys :=
  (filename, content) :: List.filter (fun kv => !(kv.1 == filename)) fs

/-- URI-scheme retrieval handlers (spec §6): only their presence matters to the
checked claims — the modelled schemas resolve every reference locally, so
handlers are carried as an opaque list of scheme names and never consulted. -/
def Handlers : Type := List String

/-- Shared runtime support written ahead of the generated routines
(`code_generator.global_state_code`, `__init__.py` line 138).  Modelled from
the spec (§2 Validation Artifact): regex matching, deep equality and error
construction helpers, a fixed preamble identical for every compilation. -/
def global_state_code : String :=
  "import re\nfrom fastjsonschema import JsonSchemaException\n\n"

/-- Tokens of the serialized artifact.  Modelled from the spec (§6 `emit`,
§9 Dynamic code assembly): the persisted form of the compiled artifact is a
deterministic textual rendering of the routine representation; the rendering
is token-structured so that an independent loader can reconstruct the routine
representation exactly. -/
inductive Tok where
  | tNull | tTrue | tFalse
  | tNum : Int → Tok
  | tStr : String → Tok
  | tArr | tObj | tEnd
  | tItem : Tok
  | tField : String → Tok
  | tRef | tVal
  | tNoType : Tok
  | tType : JsonType → Tok
  | tNoDefault | tDefault
  | tProp : String → Tok
deriving DecidableEq, Repr

/- Serialization of JSON values embedded in the artifact (`default` payloads). -/
mutual

def serV : JsonValue → List Tok
  | .null => [.tNull]
  | .bool true => [.tTrue]
  | .bool false => [.tFalse]
  | .num n => [.tNum n]
  | .str s => [.tStr s]
  | .arr xs => .tArr :: (serVs xs ++ [.tEnd])
  | .obj fs => .tObj :: (serFs fs ++ [.tEnd])

def serVs : List JsonValue → List Tok
  | [] => []
  | v :: rest => .tItem :: (serV v ++ serVs rest)

def serFs : List (String × JsonValue) → List Tok
  | [] => []
  | (k, v) :: rest => .tField k :: (serV v ++ serFs rest)

end

/-- Serialized form of an optional `type` keyword. -/
def serOptType : Option JsonType → List Tok
  | none => [.tNoType]
  | some t => [.tType t]

/-- Serialized form of an optional `default` keyword. -/
def serOptDefault : Option JsonValue → List Tok
  | none => [.tNoDefault]
  | some v => .tDefault :: serV v

/- Serialization of the routine representation itself. -/
mutual

def serS : Schema → List Tok
  | .ref => [.tRef]
  | .val typ props dflt =>
      .tVal :: (serOptType typ ++ (serProps props ++ (.tEnd :: serOptDefault dflt)))

def serProps : List (String × Schema) → List Tok
  | [] => []
  | (k, s) :: rest => .tProp k :: (serS s ++ serProps rest)

end

/- The independent loader: parses a token stream back into the routine
representation.  Fuel counts nesting depth; it is instantiated from the
stream length when loading. -/
mutual

def parseV : Nat → List Tok → Option (JsonValue × List Tok)
  | 0, _ => none
  | _ + 1, .tNull :: r => some (.null, r)
  | _ + 1, .tTrue :: r => some (.bool true, r)
  | _ + 1, .tFalse :: r => some (.bool false, r)
  | _ + 1, .tNum m :: r => some (.num m, r)
  | _ + 1, .tStr s :: r => some (.str s, r)
  | n + 1, .tArr :: r => (parseVs n r).map (fun p => (.arr p.1, p.2))
  | n + 1, .tObj :: r => (parseFs n r).map (fun p => (.obj p.1, p.2))
  | _ + 1, _ => none

def parseVs : Nat → List Tok → Option (List JsonValue × List Tok)
  | 0, _ => none
  | _ + 1, .tEnd :: r => some ([], r)
  | n + 1, .tItem :: r => do
      let p1 ← parseV n r
      let p2 ← parseVs n p1.2
      some (p1.1 :: p2.1, p2.2)
  | _ + 1, _ => none

def parseFs : Nat → List Tok → Option (List (String × JsonValue) × List Tok)
  | 0, _ => none
  | _ + 1, .tEnd :: r => some ([], r)
  | n + 1, .tField k :: r => do
      let p1 ← parseV n r
      let p2 ← parseFs n p1.2
      some ((k, p1.1) :: p2.1, p2.2)
  | _ + 1, _ => none

end

/-- Loader for an optional `type` keyword. -/
def parseOptType : List Tok → Option (Option JsonType × List Tok)
  | .tNoType :: r => some (none, r)
  | .tType t :: r => some (some t, r)
  | _ => none

/-- Loader for an optional `default` keyword. -/
def parseOptDefault : Nat → List Tok → Option (Option JsonValue × List Tok)
  | _, .tNoDefault :: r => some (none, r)
  | n, .tDefault :: r => (parseV n r).map (fun p => (some p.1, p.2))
  | _, _ => none

mutual

def parseS : Nat → List Tok → Option (Schema × List Tok)
  | 0, _ => none
  | _ + 1, .tRef :: r => some (.ref, r)
  | n + 1, .tVal :: r => do
      let pt ← parseOptType r
      let pp ← parseProps n pt.2
      let pd ← parseOptDefault n pp.2
      some (.val pt.1 pp.1 pd.1, pd.2)
  | _ + 1, _ => none

def parseProps : Nat → List Tok → Option (List (String × Schema) × List Tok)
  | 0, _ => none
  | _ + 1, .tEnd :: r => some ([], r)
  | n + 1, .tProp k :: r => do
      let p1 ← parseS n r
      let p2 ← parseProps n p1.2
      some ((k, p1.1) :: p2.1, p2.2)
  | _ + 1, _ => none

end

/- Nesting depth of values and schemas, bounding the fuel the loader needs. -/
mutual

def depthV : JsonValue → Nat
  | .null => 1
  | .bool _ => 1
  | .num _ => 1
  | .str _ => 1
  | .arr xs => depthVs xs + 1
  | .obj fs => depthFs fs + 1

def depthVs : List JsonValue → Nat
  | [] => 1
  | v :: rest => max (depthV v) (depthVs rest) + 1

def depthFs : List (String × JsonValue) → Nat
  | [] => 1
  | (_, v) :: rest => max (depthV v) (depthFs rest) + 1

end

/-- Depth of an optional `default` payload. -/
def depthOptV : Option JsonValue → Nat
  | none => 1
  | some v => depthV v

mutual

def depthS : Schema → Nat
  | .ref => 1
  | .val _ props dflt => max (depthProps props) (depthOptV dflt) + 1

def depthProps : List (String × Schema) → Nat
  | [] => 1
  | (_, s) :: rest => max (depthS s) (depthProps rest) + 1

end

/-- Loading the persisted artifact: the whole token stream must parse back to
one routine representation with nothing left over. -/
def loadArtifact (ts : List Tok) : Option Schema :=
  match parseS (ts.length + 1) ts with
  | some (s, []) => some s
  | _ => none

/-- Unary length prefix of a string payload: as many copies of the digit one
as the payload has characters, a colon, then the payload characters themselves.
Length-prefixing keeps the rendering unambiguous whatever characters the
payload contains, so the persisted text determines the token stream. -/
def strChars (s : String) : List Char :=
  List.replicate s.data.length '1' ++ ':' :: s.data

/-- Read back a length-prefixed string payload. -/
def readStr (cs : List Char) : Option (String × List Char) :=
  let ones := cs.takeWhile (fun c => c == '1')
  match cs.drop ones.length with
  | ':' :: rest => some (String.mk (rest.take ones.length), rest.drop ones.length)
  | _ => none

/-- Sign-and-unary rendering of an integer payload, terminated unambiguously. -/
def intChars (n : Int) : List Char :=
  (if n < 0 then '-' else '+') :: (List.replicate n.natAbs '1' ++ [';'])

/-- Read back an integer payload. -/
def readInt (cs : List Char) : Option (Int × List Char) :=
  match cs with
  | [] => none
  | sign :: cs2 =>
      let ones := cs2.takeWhile (fun c => c == '1')
      match cs2.drop ones.length with
      | ';' :: rest =>
          some (if sign = '-' then -(ones.length : Int) else (ones.length : Int), rest)
      | _ => none

/-- Tag character of a runtime kind. -/
def typeChar : JsonType → Char
  | .null => '0'
  | .boolean => '2'
  | .number => '3'
  | .integer => '4'
  | .string => '5'
  | .array => '6'
  | .object => '7'

/-- Decode a runtime-kind tag character. -/
def charType (c : Char) : Option JsonType :=
  if c = '0' then some .null
  else if c = '2' then some .boolean
  else if c = '3' then some .number
  else if c = '4' then some .integer
  else if c = '5' then some .string
  else if c = '6' then some .array
  else if c = '7' then some .object
  else none

/-- Rendering of one token as artifact source characters: a distinct tag
character followed by the token's payload, if any. -/
def tokChars : Tok → List Char
  | .tNull => ['n']
  | .tTrue => ['t']
  | .tFalse => ['f']
  | .tNum n => 'i' :: intChars n
  | .tStr s => 's' :: strChars s
  | .tArr => ['a']
  | .tObj => ['o']
  | .tEnd => ['e']
  | .tItem => ['m']
  | .tField k => 'k' :: strChars k
  | .tRef => ['r']
  | .tVal => ['v']
  | .tNoType => ['y']
  | .tType t => 'Y' :: [typeChar t]
  | .tNoDefault => ['d']
  | .tDefault => ['D']
  | .tProp k => 'p' :: strChars k

/-- Rendering of a whole token stream as artifact source characters. -/
def renderChars : List Tok → List Char
  | [] => []
  | t :: ts => tokChars t ++ renderChars ts

/-- The lexer of the independent loader: reads one token from the front of the
artifact source text. -/
def lexTok : List Char → Option (Tok × List Char)
  | [] => none
  | c :: cs =>
      if c = 'n' then some (.tNull, cs)
      else if c = 't' then some (.tTrue, cs)
      else if c = 'f' then some (.tFalse, cs)
      else if c = 'a' then some (.tArr, cs)
      else if c = 'o' then some (.tObj, cs)
      else if c = 'e' then some (.tEnd, cs)
      else if c = 'm' then some (.tItem, cs)
      else if c = 'r' then some (.tRef, cs)
      else if c = 'v' then some (.tVal, cs)
      else if c = 'y' then some (.tNoType, cs)
      else if c = 'd' then some (.tNoDefault, cs)
      else if c = 'D' then some (.tDefault, cs)
      else if c = 'i' then (readInt cs).map (fun p => (.tNum p.1, p.2))
      else if c = 's' then (readStr cs).map (fun p => (.tStr p.1, p.2))
      else if c = 'k' then (readStr cs).map (fun p => (.tField p.1, p.2))
      else if c = 'p' then (readStr cs).map (fun p => (.tProp p.1, p.2))
      else if c = 'Y' then
        match cs with
        | c2 :: cs2 => (charType c2).map (fun t => (.tType t, cs2))
        | [] => none
      else none

/-- Lex a whole artifact source into its token stream; fuel is instantiated
from the source length when loading. -/
def lexAll : Nat → List Char → Option (List Tok)
  | 0, cs => if cs.isEmpty then some [] else none
  | n + 1, cs =>
      if cs.isEmpty then some []
      else
        match lexTok cs with
        | some (t, rest) => (lexAll n rest).map (fun ts => t :: ts)
        | none => none

/-- Source text of a token stream: the string of its rendered characters. -/
def sourceText (ts : List Tok) : String :=
  String.mk (renderChars ts)

/-- The file contents `write_code` produces: the shared runtime preamble
followed by the rendered routines (`__init__.py` lines 139-141 print
`global_state_code` and then `func_code`). -/
def serializedSource (definition : Schema) : String :=
  global_state_code ++ sourceText (serS definition)

/-- The independent loader at the text level (Python importing the written
file): check and strip the shared preamble, lex the remaining source into its
token stream, and parse that stream into the routine representation. -/
def load_code (source : String) : Option Schema :=
  if source.data.take global_state_code.data.length = global_state_code.data then
    match lexAll (source.data.length + 1)
        (source.data.drop global_state_code.data.length) with
    | some ts => loadArtifact ts
    | none => none
  else none

/-- Invoking the entry routine of the loaded persisted artifact on a value
(spec §8 Round-trip); text that does not load fails like a failing Python
import. -/
def loadAndRun (source : String) (fuel : Nat) (v : JsonValue) :
    Except JsonSchemaException JsonValue :=
  match load_code source with
  | some s => compile s fuel v
  | none => .error ⟨"ImportError", "cannot load serialized artifact", []⟩

/-- `fastjsonschema.write_code` (`__init__.py` lines 91-142), with the Python
file system passed explicitly: if the destination exists and `overwrite` is
left `False`, it raises `JsonSchemaException` before building the resolver or
the code generator (lines 131-132); otherwise it resolves the scope name and
writes the shared preamble and the generated routines to the file, returning
the generated entry-point name. -/
def write_code (fs : FileSys) (filename : String) (definition : Schema)
    (_handlers : Handlers) (overwrite : Bool) :
    Except JsonSchemaException String × FileSys :=
  if fsExists fs filename && !overwrite then
    (.error (jsonSchemaExc ("file " ++ filename ++ " already exists") []), fs)
  else
    (.ok (entryName definition), fsSet fs filename (serializedSource definition))

/-- A reference graph over the scopes of a schema document set.  Modelled from
the spec (§3 Scope, ScopeGraph): the finitely many scopes of the root document
and all retrievable documents are numbered `0 .. size - 1`; `refsOf s` lists
the scopes that the reference keywords of scope `s` resolve to (the relation
may be cyclic, including mutual cycles across documents). -/
structure RefGraph where
  size : Nat
  root : Fin size
  refsOf : Fin size → List (Fin size)

/-- The worklist traversal of the Scope Resolver.  Modelled from the spec
(§4.1 Algorithm): pop a scope; if it is already recorded, do nothing; else
record it and enqueue every scope its references resolve to.  The recorded
list is the emission order of generated routines, one per recorded scope. -/
def resolveLoop (g : RefGraph) (visited : List (Fin g.size)) :
    List (Fin g.size) → List (Fin g.size)
  | [] => visited
  | s :: rest =>
      if s ∈ visited then resolveLoop g visited rest
      else resolveLoop g (s :: visited) (rest ++ g.refsOf s)
termination_by wl => ((Finset.univ \ visited.toFinset).card, wl.length)
decreasing_by
  · apply Prod.Lex.right
    simp
  · apply Prod.Lex.left
    apply Finset.card_lt_card
    have hsub : (Finset.univ \ (s :: visited).toFinset) ⊆
        (Finset.univ \ visited.toFinset) := by
      intro x hx
      simp at hx ⊢
      exact hx.2
    rw [Finset.ssubset_iff_of_subset hsub]
    refine ⟨s, ?_, ?_⟩ <;> simp_all

/-- `RefResolver.from_schema` walking the whole document (spec §4.1): the
worklist starts with the root scope and an empty graph; the result lists every
scope that received a generated routine. -/
def resolve (g : RefGraph) : List (Fin g.size) :=
  resolveLoop g [] [g.root]

/-- Reachability along reference keywords from the root scope (spec §3:
"every Scope reachable from the root"). -/
inductive Reaches (g : RefGraph) : Fin g.size → Prop where
  | root : Reaches g g.root
  | step {s t : Fin g.size} : Reaches g s → t ∈ g.refsOf s → Reaches g t

/-- Conjunction over the fields of an object. -/
def fieldsAll (p : String → JsonValue → Bool) : List (String × JsonValue) → Bool
  | [] => true
  | (k, v) :: rest => p k v && fieldsAll p rest

/-- Every declared property whose sub-schema declares a `default` is present in
the object at exactly its default value. -/
def defaultsPresent (props : List (String × Schema)) (fields : List (String × JsonValue)) : Bool :=
  props.all (fun ks =>
    match defaultOf ks.2 with
    | some d =>
        match lookupField fields ks.1 with
        | some v => beqV v d
        | none => false
    | none => true)

/-- The value already contains, recursively at every position its schema
reaches, all fields at their schema-declared default values (spec §8,
idempotence of defaults).  Mirrors the fuel discipline of `validate`. -/
def containsDefaults (root : Schema) : Nat → Schema → JsonValue → Bool
  | 0, _, _ => false
  | n + 1, .ref, v => containsDefaults root n root v
  | n + 1, .val _ props _, v =>
      match v with
      | .obj fields =>
          defaultsPresent props fields &&
          fieldsAll (fun k fv =>
            match lookupProp props k with
            | some sub => containsDefaults root n sub fv
            | none => true) fields
      | _ => true

/-- The schema of the default-injection scenario:
`{"type":"object","properties":{"a":{"type":"number","default":42}}}`. -/
def schemaC2 : Schema :=
  .val (some .object) [("a", .val (some .number) [] (some (.num 42)))] none

/-- The schema of the string scenario: `{"type": "string"}`. -/
def schemaC3 : Schema := .val (some .string) [] none

/-- The self-referencing schema `{"type":"object","properties":{"a":{"$ref":"#"}}}`. -/
def schemaC4 : Schema := .val (some .object) [("a", .ref)] none

/-- An object schema declaring a defaulted numeric property `a` and an
undefaulted string property `b`. -/
def schemaC6 : Schema :=
  .val (some .object)
    [("a", .val (some .number) [] (some (.num 42))),
     ("b", .val (some .string) [] none)] none

/-- A value containing every `schemaC6`-declared default (`a` at `42`) whose
field `b` nonetheless violates its declared type. -/
def valC6 : JsonValue := .obj [("a", .num 42), ("b", .num 7)]

/-- A two-scope reference graph with a mutual cycle: scope 0 references scope 1
and scope 1 references scope 0. -/
def graphC5 : RefGraph :=
  ⟨2, ⟨0, by omega⟩, fun s => [⟨1 - s.val, by omega⟩]⟩

/-- A file system on which `validator.py` already exists. -/
def fsC : FileSys := [("validator.py", "preexisting contents")]

theorem one_le_depthV : ∀ v, 1 ≤ depthV v
  | .null => by simp [depthV]
  | .bool _ => by simp [depthV]
  | .num _ => by simp [depthV]
  | .str _ => by simp [depthV]
  | .arr _ => by simp [depthV]
  | .obj _ => by simp [depthV]

theorem one_le_depthVs : ∀ xs, 1 ≤ depthVs xs
  | [] => by simp [depthVs]
  | _ :: _ => by simp [depthVs]

theorem one_le_depthFs : ∀ fs, 1 ≤ depthFs fs
  | [] => by simp [depthFs]
  | (_, _) :: _ => by simp [depthFs]

theorem one_le_depthS : ∀ s, 1 ≤ depthS s
  | .ref => by simp [depthS]
  | .val _ _ _ => by simp [depthS]

theorem one_le_depthProps : ∀ ps, 1 ≤ depthProps ps
  | [] => by simp [depthProps]
  | (_, _) :: _ => by simp [depthProps]

mutual

theorem parseV_ser : ∀ n v rest, depthV v ≤ n →
    parseV n (serV v ++ rest) = some (v, rest)
  | 0, v, _, h => absurd (le_trans (one_le_depthV v) h) (by omega)
  | _ + 1, .null, rest, _ => by simp [serV, parseV]
  | _ + 1, .bool true, rest, _ => by simp [serV, parseV]
  | _ + 1, .bool false, rest, _ => by simp [serV, parseV]
  | _ + 1, .num _, rest, _ => by simp [serV, parseV]
  | _ + 1, .str _, rest, _ => by simp [serV, parseV]
  | n + 1, .arr xs, rest, h => by
      have hx : depthVs xs ≤ n := by simp [depthV] at h; omega
      simp [serV, parseV, parseVs_ser n xs rest hx]
  | n + 1, .obj fs, rest, h => by
      have hx : depthFs fs ≤ n := by simp [depthV] at h; omega
      simp [serV, parseV, parseFs_ser n fs rest hx]

theorem parseVs_ser : ∀ n xs rest, depthVs xs ≤ n →
    parseVs n (serVs xs ++ .tEnd :: rest) = some (xs, rest)
  | 0, xs, _, h => absurd (le_trans (one_le_depthVs xs) h) (by omega)
  | _ + 1, [], rest, _ => by simp [serVs, parseVs]
  | n + 1, v :: vs, rest, h => by
      have h1 : depthV v ≤ n := by simp [depthVs] at h; omega
      have h2 : depthVs vs ≤ n := by simp [depthVs] at h; omega
      simp [serVs, parseVs, parseV_ser n v _ h1, parseVs_ser n vs rest h2]

theorem parseFs_ser : ∀ n fs rest, depthFs fs ≤ n →
    parseFs n (serFs fs ++ .tEnd :: rest) = some (fs, rest)
  | 0, fs, _, h => absurd (le_trans (one_le_depthFs fs) h) (by omega)
  | _ + 1, [], rest, _ => by simp [serFs, parseFs]
  | n + 1, (k, v) :: fs, rest, h => by
      have h1 : depthV v ≤ n := by simp [depthFs] at h; omega
      have h2 : depthFs fs ≤ n := by simp [depthFs] at h; omega
      simp [serFs, parseFs, parseV_ser n v _ h1, parseFs_ser n fs rest h2]

end

theorem parseOptType_ser (typ : Option JsonType) (rest : List Tok) :
    parseOptType (serOptType typ ++ rest) = some (typ, rest) := by
  cases typ <;> simp [serOptType, parseOptType]

theorem parseOptDefault_ser (n : Nat) (dflt : Option JsonValue) (rest : List Tok)
    (h : depthOptV dflt ≤ n) :
    parseOptDefault n (serOptDefault dflt ++ rest) = some (dflt, rest) := by
  cases dflt with
  | none => simp [serOptDefault, parseOptDefault]
  | some v => simp [serOptDefault, parseOptDefault, parseV_ser n v rest (by simpa [depthOptV] using h)]

mutual

theorem parseS_ser : ∀ n s rest, depthS s ≤ n →
    parseS n (serS s ++ rest) = some (s, rest)
  | 0, s, _, h => absurd (le_trans (one_le_depthS s) h) (by omega)
  | _ + 1, .ref, rest, _ => by simp [serS, parseS]
  | n + 1, .val typ props dflt, rest, h => by
      have h1 : depthProps props ≤ n := by simp [depthS] at h; omega
      have h2 : depthOptV dflt ≤ n := by simp [depthS] at h; omega
      simp [serS, parseS, parseOptType_ser, parseProps_ser n props _ h1,
        parseOptDefault_ser n dflt rest h2]

theorem parseProps_ser : ∀ n ps rest, depthProps ps ≤ n →
    parseProps n (serProps ps ++ .tEnd :: rest) = some (ps, rest)
  | 0, ps, _, h => absurd (le_trans (one_le_depthProps ps) h) (by omega)
  | _ + 1, [], rest, _ => by simp [serProps, parseProps]
  | n + 1, (k, s) :: ps, rest, h => by
      have h1 : depthS s ≤ n := by simp [depthProps] at h; omega
      have h2 : depthProps ps ≤ n := by simp [depthProps] at h; omega
      simp [serProps, parseProps, parseS_ser n s _ h1, parseProps_ser n ps rest h2]

end

theorem serV_length_pos : ∀ v, 1 ≤ (serV v).length
  | .null => by simp [serV]
  | .bool true => by simp [serV]
  | .bool false => by simp [serV]
  | .num _ => by simp [serV]
  | .str _ => by simp [serV]
  | .arr _ => by simp [serV]
  | .obj _ => by simp [serV]

mutual

theorem depthV_le : ∀ v, depthV v ≤ (serV v).length
  | .null => by simp [depthV, serV]
  | .bool true => by simp [depthV, serV]
  | .bool false => by simp [depthV, serV]
  | .num _ => by simp [depthV, serV]
  | .str _ => by simp [depthV, serV]
  | .arr xs => by
      have h := depthVs_le xs
      simp [depthV, serV]
      omega
  | .obj fs => by
      have h := depthFs_le fs
      simp [depthV, serV]
      omega

theorem depthVs_le : ∀ xs, depthVs xs ≤ (serVs xs).length + 1
  | [] => by simp [depthVs, serVs]
  | v :: vs => by
      have h1 := depthV_le v
      have h2 := depthVs_le vs
      simp only [depthVs, serVs, List.length_cons, List.length_append]
      refine Nat.add_le_add_right ?_ 1
      exact Nat.max_le.mpr ⟨by omega, by omega⟩

theorem depthFs_le : ∀ fs, depthFs fs ≤ (serFs fs).length + 1
  | [] => by simp [depthFs, serFs]
  | (k, v) :: fs => by
      have h1 := depthV_le v
      have h2 := depthFs_le fs
      simp only [depthFs, serFs, List.length_cons, List.length_append]
      refine Nat.add_le_add_right ?_ 1
      exact Nat.max_le.mpr ⟨by omega, by omega⟩

end

mutual

theorem depthS_le : ∀ s, depthS s ≤ (serS s).length
  | .ref => by simp [depthS, serS]
  | .val typ props dflt => by
      have h1 := depthProps_le props
      have h2 : depthOptV dflt ≤ (serOptDefault dflt).length := by
        cases dflt with
        | none => simp [depthOptV, serOptDefault]
        | some v => simpa [depthOptV, serOptDefault] using Nat.le_succ_of_le (depthV_le v)
      have h3 : max (depthProps props) (depthOptV dflt) ≤
          (serProps props).length + (serOptDefault dflt).length + 1 :=
        Nat.max_le.mpr ⟨by omega, by omega⟩
      cases typ <;>
        simp only [depthS, serS, serOptType, List.length_cons, List.length_append] <;>
        omega

theorem depthProps_le : ∀ ps, depthProps ps ≤ (serProps ps).length + 1
  | [] => by simp [depthProps, serProps]
  | (k, s) :: ps => by
      have h1 := depthS_le s
      have h2 := depthProps_le ps
      simp only [depthProps, serProps, List.length_cons, List.length_append]
      refine Nat.add_le_add_right ?_ 1
      exact Nat.max_le.mpr ⟨by omega, by omega⟩

end

theorem loadArtifact_ser (d : Schema) : loadArtifact (serS d) = some d := by
  have h : parseS ((serS d).length + 1) (serS d ++ []) = some (d, []) :=
    parseS_ser _ d [] (Nat.le_succ_of_le (depthS_le d))
  rw [List.append_nil] at h
  simp [loadArtifact, h]

theorem takeWhile_ones (n : Nat) (c : Char) (rest : List Char)
    (h : (c == '1') = false) :
    (List.replicate n '1' ++ c :: rest).takeWhile (fun x => x == '1') =
      List.replicate n '1' := by
  induction n with
  | zero => simp [List.takeWhile_cons, h]
  | succ n ih => simp [List.replicate_succ, List.takeWhile_cons, ih]

theorem readStr_strChars (s : String) (rest : List Char) :
    readStr (strChars s ++ rest) = some (s, rest) := by
  unfold readStr strChars
  rw [List.append_assoc, List.cons_append]
  rw [takeWhile_ones s.data.length ':' (s.data ++ rest) (by decide)]
  simp only [List.length_replicate]
  rw [List.drop_left' (show (List.replicate s.data.length '1').length = s.data.length by
    simp)]
  split
  · rename_i r hr
    rw [List.cons.injEq] at hr
    rw [← hr.2]
    rw [List.take_left' (show s.data.length = s.data.length from rfl),
      List.drop_left' (show s.data.length = s.data.length from rfl)]
  · rename_i hne
    exact absurd rfl (hne (s.data ++ rest))

theorem readInt_intChars (n : Int) (rest : List Char) :
    readInt (intChars n ++ rest) = some (n, rest) := by
  unfold readInt intChars
  rw [List.cons_append, List.append_assoc, List.singleton_append]
  split
  · rename_i heq
    simp at heq
  · rename_i sign cs2 hcons
    rw [List.cons.injEq] at hcons
    obtain ⟨hsign, hcs2⟩ := hcons
    subst hsign
    subst hcs2
    rw [takeWhile_ones n.natAbs ';' rest (by decide)]
    simp only [List.length_replicate]
    rw [List.drop_left' (show (List.replicate n.natAbs '1').length = n.natAbs by simp)]
    split
    · rename_i r hr
      rw [List.cons.injEq] at hr
      rw [← hr.2]
      by_cases hn : n < 0
      · simp only [hn, if_true, Option.some.injEq, Prod.mk.injEq]
        refine ⟨?_, trivial⟩
        omega
      · simp only [hn, if_false]
        have hchar : (('+' : Char) = '-') = False := by simp
        simp only [hchar, if_false, Option.some.injEq, Prod.mk.injEq]
        refine ⟨?_, trivial⟩
        omega
    · rename_i hne
      exact absurd rfl (hne rest)

theorem charType_typeChar (t : JsonType) : charType (typeChar t) = some t := by
  cases t <;> rfl

theorem lexTok_tokChars (t : Tok) (rest : List Char) :
    lexTok (tokChars t ++ rest) = some (t, rest) := by
  cases t <;>
    simp [tokChars, lexTok, readStr_strChars, readInt_intChars, charType_typeChar]

theorem one_le_tokChars_length (t : Tok) : 1 ≤ (tokChars t).length := by
  cases t <;> simp [tokChars]

theorem renderChars_length (ts : List Tok) : ts.length ≤ (renderChars ts).length := by
  induction ts with
  | nil => simp [renderChars]
  | cons t ts ih =>
      have h := one_le_tokChars_length t
      simp only [renderChars, List.length_cons, List.length_append]
      omega

theorem lexAll_render : ∀ n ts, ts.length ≤ n → lexAll n (renderChars ts) = some ts
  | n, [], _ => by cases n <;> simp [lexAll, renderChars]
  | 0, t :: ts, h => absurd h (by simp)
  | n + 1, t :: ts, h => by
      have hne : (tokChars t ++ renderChars ts).isEmpty = false := by
        cases hc : tokChars t with
        | nil => exact absurd hc (by have := one_le_tokChars_length t; intro he; simp [he] at this)
        | cons a l => simp [hc]
      simp only [renderChars, lexAll, hne, Bool.false_eq_true, if_false]
      rw [lexTok_tokChars t (renderChars ts)]
      show Option.map (fun ts2 => t :: ts2) (lexAll n (renderChars ts)) = some (t :: ts)
      rw [lexAll_render n ts (by simpa using Nat.le_of_succ_le_succ h)]
      rfl

theorem load_code_ser (d : Schema) : load_code (serializedSource d) = some d := by
  have hdata : (serializedSource d).data =
      global_state_code.data ++ renderChars (serS d) := rfl
  have hfuel : (serS d).length ≤
      (global_state_code.data ++ renderChars (serS d)).length + 1 := by
    have h := renderChars_length (serS d)
    simp only [List.length_append]
    omega
  unfold load_code
  rw [hdata, List.take_left, List.drop_left]
  rw [if_pos rfl]
  rw [lexAll_render _ _ hfuel]
  exact loadArtifact_ser d

theorem lookupField_isSome_of_defaultsPresent
    (props : List (String × Schema)) (fields : List (String × JsonValue))
    (h : defaultsPresent props fields = true)
    (k : String) (sub : Schema) (hmem : (k, sub) ∈ props)
    (d : JsonValue) (hd : defaultOf sub = some d) :
    (lookupField fields k).isSome = true := by
  have hall := (List.all_eq_true.mp h) (k, sub) hmem
  simp only [hd] at hall
  cases hlk : lookupField fields k with
  | none => simp [hlk] at hall
  | some v => simp

theorem injectDefaults_of_present
    (props : List (String × Schema)) (fields : List (String × JsonValue))
    (h : defaultsPresent props fields = true) :
    injectDefaults props fields = fields := by
  have hnil : props.filterMap (fun ks =>
      if (lookupField fields ks.1).isSome then none
      else (defaultOf ks.2).map (fun d => (ks.1, d))) = [] := by
    rw [List.filterMap_eq_nil_iff]
    intro ks hks
    cases hdo : defaultOf ks.2 with
    | none => simp [hdo]
    | some d =>
        have := lookupField_isSome_of_defaultsPresent props fields h ks.1 ks.2
          (by simpa using hks) d hdo
        simp [this]
  simp [injectDefaults, hnil]

theorem mapFieldsM_preserves
    (f : String → JsonValue → Except JsonSchemaException JsonValue)
    (p : String → JsonValue → Bool)
    (h : ∀ k v r, p k v = true → f k v = .ok r → r = v) :
    ∀ fields r, fieldsAll p fields = true → mapFieldsM f fields = .ok r → r = fields := by
  intro fields
  induction fields with
  | nil =>
      intro r _ hm
      simp [mapFieldsM] at hm
      exact hm
  | cons kv rest ih =>
      obtain ⟨k, v⟩ := kv
      intro r hp hm
      simp [fieldsAll] at hp
      cases hf : f k v with
      | error e => simp [mapFieldsM, hf] at hm
      | ok v2 =>
          cases hrest : mapFieldsM f rest with
          | error e => simp [mapFieldsM, hf, hrest] at hm
          | ok rest2 =>
              simp [mapFieldsM, hf, hrest] at hm
              have hv2 := h k v v2 hp.1 hf
              have hrest2 := ih rest2 hp.2 hrest
              rw [← hm, hv2, hrest2]

theorem mapFieldsM_error
    (f : String → JsonValue → Except JsonSchemaException JsonValue) :
    ∀ fields e, mapFieldsM f fields = .error e →
      ∃ k v, (k, v) ∈ fields ∧ f k v = .error e := by
  intro fields
  induction fields with
  | nil => intro e hm; simp [mapFieldsM] at hm
  | cons kv rest ih =>
      obtain ⟨k, v⟩ := kv
      intro e hm
      cases hf : f k v with
      | error e2 =>
          simp [mapFieldsM, hf] at hm
          exact ⟨k, v, by simp, by rw [hf, hm]⟩
      | ok v2 =>
          cases hrest : mapFieldsM f rest with
          | error e2 =>
              simp [mapFieldsM, hf, hrest] at hm
              obtain ⟨k2, v3, hmem, hfe⟩ := ih e2 hrest
              exact ⟨k2, v3, by simp [hmem], by rw [hfe, hm]⟩
          | ok rest2 => simp [mapFieldsM, hf, hrest] at hm

theorem validObject_preserves
    (recur : Schema → List String → JsonValue → Except JsonSchemaException JsonValue)
    (q : Schema → JsonValue → Bool)
    (hrec : ∀ sub p2 v2 r2, q sub v2 = true → recur sub p2 v2 = .ok r2 → r2 = v2)
    (props : List (String × Schema)) (path : List String) (v : JsonValue)
    (r : JsonValue)
    (hc : match v with
      | .obj fields =>
          defaultsPresent props fields = true ∧
          fieldsAll (fun k fv =>
            match lookupProp props k with
            | some sub => q sub fv
            | none => true) fields = true
      | _ => True)
    (hv : validObject recur props path v = .ok r) : r = v := by
  cases v with
  | obj fields =>
      obtain ⟨h1, h2⟩ := hc
      simp only [validObject] at hv
      rw [injectDefaults_of_present props fields h1] at hv
      cases hmap : mapFieldsM (fun k fv =>
          match lookupProp props k with
          | some sub => recur sub (path ++ [k]) fv
          | none => .ok fv) fields with
      | error e => rw [hmap] at hv; simp [Except.map] at hv
      | ok fields2 =>
          rw [hmap] at hv
          simp [Except.map] at hv
          have heq : fields2 = fields := by
            refine mapFieldsM_preserves _
              (fun k fv =>
                match lookupProp props k with
                | some sub => q sub fv
                | none => true) ?_ fields fields2 h2 hmap
            intro k v2 r2 hp hf
            cases hlp : lookupProp props k with
            | some sub =>
                simp only [hlp] at hp hf
                exact hrec sub (path ++ [k]) v2 r2 hp hf
            | none =>
                simp only [hlp] at hf
                cases hf
                rfl
          rw [← hv, heq]
  | null => simp only [validObject] at hv; cases hv; rfl
  | bool b => simp only [validObject] at hv; cases hv; rfl
  | num m => simp only [validObject] at hv; cases hv; rfl
  | str s => simp only [validObject] at hv; cases hv; rfl
  | arr xs => simp only [validObject] at hv; cases hv; rfl

theorem validate_defaults (root : Schema) :
    ∀ n S path v r, containsDefaults root n S v = true →
      validate root n S path v = .ok r → r = v := by
  intro n
  induction n with
  | zero =>
      intro S path v r hc
      simp [containsDefaults] at hc
  | succ n ih =>
      intro S path v r hc hv
      cases S with
      | ref =>
          simp only [containsDefaults] at hc
          simp only [validate] at hv
          exact ih root path v r hc hv
      | val typ props dflt =>
          have hq : ∀ sub p2 v2 r2, containsDefaults root n sub v2 = true →
              validate root n sub p2 v2 = .ok r2 → r2 = v2 :=
            fun sub p2 v2 r2 => ih sub p2 v2 r2
          have hbody : validObject (validate root n) props path v = .ok r → r = v := by
            intro hv2
            refine validObject_preserves (validate root n)
              (containsDefaults root n) hq props path v r ?_ hv2
            cases v with
            | obj fields =>
                simp only [containsDefaults, Bool.and_eq_true] at hc
                exact hc
            | null => trivial
            | bool b => trivial
            | num m => trivial
            | str s => trivial
            | arr xs => trivial
          cases typ with
          | none =>
              simp only [validate] at hv
              exact hbody hv
          | some t =>
              simp only [validate] at hv
              by_cases ht : typeMatch t v = true
              · rw [if_pos ht] at hv
                exact hbody hv
              · rw [if_neg ht] at hv
                cases hv

theorem validObject_error
    (recur : Schema → List String → JsonValue → Except JsonSchemaException JsonValue)
    (props : List (String × Schema)) (path : List String) (v : JsonValue)
    (e : JsonSchemaException)
    (hv : validObject recur props path v = .error e) :
    ∃ sub p2 v2, recur sub p2 v2 = .error e := by
  cases v with
  | obj fields =>
      simp only [validObject] at hv
      cases hmap : mapFieldsM (fun k fv =>
          match lookupProp props k with
          | some sub => recur sub (path ++ [k]) fv
          | none => .ok fv) (injectDefaults props fields) with
      | ok fields2 => rw [hmap] at hv; simp [Except.map] at hv
      | error e2 =>
          rw [hmap] at hv
          simp [Except.map] at hv
          obtain ⟨k, v2, _, hf⟩ := mapFieldsM_error _ _ e2 hmap
          cases hlp : lookupProp props k with
          | some sub =>
              simp only [hlp] at hf
              exact ⟨sub, path ++ [k], v2, by rw [hf, hv]⟩
          | none => simp only [hlp] at hf; simp at hf
  | null => simp [validObject] at hv
  | bool b => simp [validObject] at hv
  | num m => simp [validObject] at hv
  | str s => simp [validObject] at hv
  | arr xs => simp [validObject] at hv

theorem validate_error_type (root : Schema) :
    ∀ n S path v e, validate root n S path v = .error e →
      e.excType = "JsonSchemaException" ∨ e.excType = "RecursionError" := by
  intro n
  induction n with
  | zero =>
      intro S path v e hv
      simp only [validate] at hv
      cases hv
      right
      rfl
  | succ n ih =>
      intro S path v e hv
      cases S with
      | ref =>
          simp only [validate] at hv
          exact ih root path v e hv
      | val typ props dflt =>
          have hbody : ∀ hv2 : validObject (validate root n) props path v = .error e,
              e.excType = "JsonSchemaException" ∨ e.excType = "RecursionError" := by
            intro hv2
            obtain ⟨sub, p2, v2, hrec⟩ := validObject_error _ props path v e hv2
            exact ih sub p2 v2 e hrec
          cases typ with
          | none =>
              simp only [validate] at hv
              exact hbody hv
          | some t =>
              simp only [validate] at hv
              by_cases ht : typeMatch t v = true
              · rw [if_pos ht] at hv
                exact hbody hv
              · rw [if_neg ht] at hv
                cases hv
                left
                rfl

theorem resolveLoop_skip (g : RefGraph) (visited : List (Fin g.size))
    (rest : List (Fin g.size)) (s : Fin g.size) (h : s ∈ visited) :
    resolveLoop g visited (s :: rest) = resolveLoop g visited rest := by
  rw [resolveLoop]
  simp [h]

theorem resolveLoop_nodup (g : RefGraph) :
    ∀ visited wl, visited.Nodup → (resolveLoop g visited wl).Nodup := by
  intro visited wl
  induction visited, wl using resolveLoop.induct g with
  | case1 visited => intro h; simpa [resolveLoop]
  | case2 visited s rest hmem ih =>
      intro h
      rw [resolveLoop_skip g visited rest s hmem]
      exact ih h
  | case3 visited s rest hmem ih =>
      intro h
      rw [resolveLoop]
      simp only [hmem, if_false]
      exact ih (by simp [h, hmem])

theorem resolveLoop_mem_visited (g : RefGraph) :
    ∀ visited wl x, x ∈ visited → x ∈ resolveLoop g visited wl := by
  intro visited wl
  induction visited, wl using resolveLoop.induct g with
  | case1 visited => intro x hx; simpa [resolveLoop]
  | case2 visited s rest hmem ih =>
      intro x hx
      rw [resolveLoop_skip g visited rest s hmem]
      exact ih x hx
  | case3 visited s rest hmem ih =>
      intro x hx
      rw [resolveLoop]
      simp only [hmem, if_false]
      exact ih x (by simp [hx])

theorem resolveLoop_mem_wl (g : RefGraph) :
    ∀ visited wl x, x ∈ wl → x ∈ resolveLoop g visited wl := by
  intro visited wl
  induction visited, wl using resolveLoop.induct g with
  | case1 visited => intro x hx; simp at hx
  | case2 visited s rest hmem ih =>
      intro x hx
      rw [resolveLoop_skip g visited rest s hmem]
      rcases List.mem_cons.mp hx with hx | hx
      · exact resolveLoop_mem_visited g visited rest x (hx ▸ hmem)
      · exact ih x hx
  | case3 visited s rest hmem ih =>
      intro x hx
      rw [resolveLoop]
      simp only [hmem, if_false]
      rcases List.mem_cons.mp hx with hx | hx
      · exact resolveLoop_mem_visited g (s :: visited) (rest ++ g.refsOf s) x (by simp [hx])
      · exact ih x (by simp [hx])

theorem resolveLoop_sound (g : RefGraph) :
    ∀ visited wl, (∀ x ∈ visited, Reaches g x) → (∀ x ∈ wl, Reaches g x) →
      ∀ x ∈ resolveLoop g visited wl, Reaches g x := by
  intro visited wl
  induction visited, wl using resolveLoop.induct g with
  | case1 visited =>
      intro hvis hwl x hx
      rw [resolveLoop] at hx
      exact hvis x hx
  | case2 visited s rest hmem ih =>
      intro hvis hwl x hx
      rw [resolveLoop_skip g visited rest s hmem] at hx
      exact ih hvis (fun y hy => hwl y (by simp [hy])) x hx
  | case3 visited s rest hmem ih =>
      intro hvis hwl x hx
      rw [resolveLoop] at hx
      simp only [hmem, if_false] at hx
      have hs : Reaches g s := hwl s (by simp)
      refine ih ?_ ?_ x hx
      · intro y hy
        rcases List.mem_cons.mp hy with hy | hy
        · exact hy ▸ hs
        · exact hvis y hy
      · intro y hy
        rcases List.mem_append.mp hy with hy | hy
        · exact hwl y (by simp [hy])
        · exact Reaches.step hs hy

theorem resolveLoop_closed (g : RefGraph) :
    ∀ visited wl,
      (∀ s ∈ visited, ∀ t ∈ g.refsOf s, t ∈ visited ∨ t ∈ wl) →
      ∀ s ∈ resolveLoop g visited wl, ∀ t ∈ g.refsOf s,
        t ∈ resolveLoop g visited wl := by
  intro visited wl
  induction visited, wl using resolveLoop.induct g with
  | case1 visited =>
      intro hinv s hs t ht
      rw [resolveLoop] at hs ⊢
      rcases hinv s hs t ht with h | h
      · exact h
      · simp at h
  | case2 visited s0 rest hmem ih =>
      intro hinv s hs t ht
      rw [resolveLoop_skip g visited rest s0 hmem] at hs ⊢
      refine ih ?_ s hs t ht
      intro s2 hs2 t2 ht2
      rcases hinv s2 hs2 t2 ht2 with h | h
      · exact Or.inl h
      · rcases List.mem_cons.mp h with h | h
        · exact Or.inl (h ▸ hmem)
        · exact Or.inr h
  | case3 visited s0 rest hmem ih =>
      intro hinv s hs t ht
      rw [resolveLoop] at hs ⊢
      simp only [hmem, if_false] at hs ⊢
      refine ih ?_ s hs t ht
      intro s2 hs2 t2 ht2
      rcases List.mem_cons.mp hs2 with hs2 | hs2
      · subst hs2
        exact Or.inr (by simp [ht2])
      · rcases hinv s2 hs2 t2 ht2 with h | h
        · exact Or.inl (by simp [h])
        · rcases List.mem_cons.mp h with h | h
          · exact Or.inl (by simp [h])
          · exact Or.inr (by simp [h])

theorem resolve_complete (g : RefGraph) :
    ∀ x, Reaches g x → x ∈ resolve g := by
  intro x hx
  induction hx with
  | root => exact resolveLoop_mem_wl g [] [g.root] g.root (by simp)
  | step hreach href ih =>
      exact resolveLoop_closed g [] [g.root] (by simp) _ ih _ href

/-- Claim C1, counterexample: the code does not use disjoint error types for
compile-time and run-time failures.  A generation-time failure (`write_code` on
an existing destination, `__init__.py` line 132) and a run-time validation
failure are both signalled with the very same error type, whose Python class
name is `JsonSchemaException` in both cases — there is no `SchemaResolutionError`,
`SchemaCompilationError` or `DataValidationException`. -/
theorem c1_single_type_counterexample :
    (write_code fsC "validator.py" schemaC3 [] false).1 =
      .error ⟨"JsonSchemaException", "file validator.py already exists", []⟩ ∧
    compile schemaC3 10 (.num 42) =
      .error ⟨"JsonSchemaException", "must be string", []⟩ ∧
    (jsonSchemaExc "file validator.py already exists" []).excType =
      (jsonSchemaExc "must be string" []).excType :=
  ⟨rfl, rfl, rfl⟩

/-- Claim C1 (amended): both kinds of failure share the single exception type
`JsonSchemaException`.  Every error `write_code` raises when refusing to
overwrite carries the class name `JsonSchemaException`, and every error the
compiled validator raises carries either `JsonSchemaException` (a violated
constraint, with its path and message) or the host interpreter's
`RecursionError` (call-stack exhaustion on an unboundedly self-referential
schema); no disjoint compile-time versus run-time error taxonomy exists. -/
theorem c1_errors_share_single_type :
    (∀ fs fn d hs e, (write_code fs fn d hs false).1 = .error e →
        e.excType = "JsonSchemaException") ∧
    (∀ root n s path v e, validate root n s path v = .error e →
        e.excType = "JsonSchemaException" ∨ e.excType = "RecursionError") := by
  constructor
  · intro fs fn d hs e h
    by_cases hex : fsExists fs fn = true
    · simp [write_code, hex] at h
      rw [← h]
      rfl
    · simp [write_code, hex] at h
  · intro root n s path v e h
    exact validate_error_type root n s path v e h

/-- Claim C1, witness for the amended theorem at concrete inputs. -/
theorem c1_errors_witness :
    (jsonSchemaExc "file validator.py already exists" []).excType =
        "JsonSchemaException" ∧
    ((jsonSchemaExc "must be object" []).excType = "JsonSchemaException" ∨
      (jsonSchemaExc "must be object" []).excType = "RecursionError") :=
  ⟨c1_errors_share_single_type.1 fsC "validator.py" schemaC2 [] _ rfl,
   c1_errors_share_single_type.2 schemaC2 10 schemaC2 [] (.str "zzz") _ rfl⟩

/-- Claim C2: compiling `{"type":"object","properties":{"a":{"type":"number",
"default":42}}}` and validating the empty object returns `{"a": 42}` — the
declared default is injected into the returned value. -/
theorem c2_default_injected :
    compile schemaC2 10 (.obj []) = .ok (.obj [("a", .num 42)]) := rfl

/-- Claim C3: the validator compiled from `{"type": "string"}` returns
`"hello"` unchanged, and fails on `42` with the empty path `[]` and a message
indicating a type mismatch expecting string. -/
theorem c3_string_scenario :
    compile schemaC3 10 (.str "hello") = .ok (.str "hello") ∧
    compile schemaC3 10 (.num 42) = .error (jsonSchemaExc "must be string" []) :=
  ⟨rfl, rfl⟩

/-- Claim C4: the validator compiled from the self-referencing schema
`{"type":"object","properties":{"a":{"$ref":"#"}}}` accepts
`{"a": {"a": {}}}` and rejects `{"a": {"a": "x"}}` at path `["a","a"]`. -/
theorem c4_self_reference_scenario :
    compile schemaC4 20 (.obj [("a", .obj [("a", .obj [])])]) =
      .ok (.obj [("a", .obj [("a", .obj [])])]) ∧
    compile schemaC4 20 (.obj [("a", .obj [("a", .str "x")])]) =
      .error (jsonSchemaExc "must be object" ["a", "a"]) :=
  ⟨rfl, rfl⟩

/-- Claim C5: for every reference graph — cyclic ones, with mutual cycles,
included — the Scope Resolver's worklist traversal terminates (it is a total
function) and produces a finite artifact: the routine emission list repeats no
scope (each distinct scope yields exactly one routine), a scope is emitted
exactly when it is reachable from the root, popping an already-recorded scope
changes nothing, and the artifact has at most one routine per scope of the
document set. -/
theorem c5_resolution_terminates_finite (g : RefGraph) :
    (resolve g).Nodup ∧
    (∀ s, s ∈ resolve g ↔ Reaches g s) ∧
    (∀ visited rest s, s ∈ visited →
        resolveLoop g visited (s :: rest) = resolveLoop g visited rest) ∧
    (resolve g).length ≤ g.size := by
  have hnd : (resolve g).Nodup := resolveLoop_nodup g [] [g.root] (by simp)
  refine ⟨hnd, ?_, ?_, ?_⟩
  · intro s
    constructor
    · intro hs
      refine resolveLoop_sound g [] [g.root] (by simp) ?_ s hs
      intro x hx
      simp at hx
      exact hx ▸ Reaches.root
    · exact resolve_complete g s
  · exact fun visited rest s h => resolveLoop_skip g visited rest s h
  · have h := List.Nodup.length_le_card hnd
    simpa using h

/-- Claim C5, witness: in the two-scope mutual cycle, popping the already
recorded root scope is a no-op. -/
theorem c5_witness :
    resolveLoop graphC5 [graphC5.root] [graphC5.root] =
      resolveLoop graphC5 [graphC5.root] [] :=
  (c5_resolution_terminates_finite graphC5).2.2.1 [graphC5.root] [] graphC5.root
    (by simp)

/-- Claim C6, counterexample: a value can contain every schema-declared default
at its default value and still not be returned unchanged, because validation
fails on an unrelated constraint.  Under
`{"type":"object","properties":{"a":{"type":"number","default":42},
"b":{"type":"string"}}}`, the value `{"a": 42, "b": 7}` contains the only
declared default (`a` at `42`), yet the compiled validator raises instead of
returning the value. -/
theorem c6_defaults_counterexample :
    containsDefaults schemaC6 10 schemaC6 valC6 = true ∧
    compile schemaC6 10 valC6 = .error (jsonSchemaExc "must be string" ["b"]) :=
  ⟨rfl, rfl⟩

/-- Claim C6 (amended): validation is idempotent with respect to default
injection whenever it succeeds — for every schema and every value that already
contains, recursively, all fields at their schema-declared default values, if
the compiled validator returns a value at all then it returns the input
structurally unchanged. -/
theorem c6_defaults_idempotent (d : Schema) (n : Nat) (v r : JsonValue)
    (hc : containsDefaults d n d v = true) (hok : compile d n v = .ok r) :
    r = v :=
  validate_defaults d n d [] v r hc hok

/-- Claim C6, witness for the amended theorem at a concrete input. -/
theorem c6_defaults_witness :
    containsDefaults schemaC2 10 schemaC2 (.obj [("a", .num 42)]) = true ∧
    compile schemaC2 10 (.obj [("a", .num 42)]) = .ok (.obj [("a", .num 42)]) ∧
    (JsonValue.obj [("a", .num 42)]) = .obj [("a", .num 42)] :=
  ⟨rfl, rfl, c6_defaults_idempotent schemaC2 10 (.obj [("a", .num 42)]) _ rfl rfl⟩

/-- Claim C7: round-trip equivalence of the two compilation modes.
`write_code` persists exactly the text `serializedSource d` (the shared
preamble followed by the rendered routines); independently loading that
persisted text — checking and stripping the preamble, lexing the characters
back into the token stream, parsing the stream into the routine
representation — and invoking the loaded entry routine gives, on every value
and every stack budget, exactly the result the validator returned directly by
`compile` gives; and `write_code` reports the same entry-point identifier
`compile` uses. -/
theorem c7_roundtrip_equivalence (d : Schema) (fuel : Nat) (v : JsonValue) :
    fsGet (write_code [] "validator.py" d [] false).2 "validator.py" =
      some (serializedSource d) ∧
    loadAndRun (serializedSource d) fuel v = compile d fuel v ∧
    (write_code [] "validator.py" d [] false).1 = .ok (entryName d) := by
  refine ⟨?_, ?_, rfl⟩
  · simp [write_code, fsExists, fsGet, fsSet]
  · simp [loadAndRun, load_code_ser d]

/-- Claim C8: serialization is deterministic.  Two invocations of the
`write_code` emission path on the same schema, in arbitrary distinct file
systems, with arbitrary destination names and handler sets, write byte-for-byte
identical artifact source text — namely `serializedSource d` — and return the
same entry-point identifier. -/
theorem c8_deterministic_emission
    (d : Schema) (fs1 fs2 : FileSys) (fn1 fn2 : String) (hs1 hs2 : Handlers)
    (h1 : fsExists fs1 fn1 = false) (h2 : fsExists fs2 fn2 = false) :
    fsGet (write_code fs1 fn1 d hs1 false).2 fn1 = some (serializedSource d) ∧
    fsGet (write_code fs2 fn2 d hs2 false).2 fn2 = some (serializedSource d) ∧
    fsGet (write_code fs1 fn1 d hs1 false).2 fn1 =
      fsGet (write_code fs2 fn2 d hs2 false).2 fn2 ∧
    (write_code fs1 fn1 d hs1 false).1 = (write_code fs2 fn2 d hs2 false).1 := by
  have hget : ∀ (fs : FileSys) fn c, fsGet (fsSet fs fn c) fn = some c := by
    intro fs fn c
    simp [fsGet, fsSet]
  refine ⟨?_, ?_, ?_, ?_⟩ <;> simp [write_code, h1, h2, hget]

/-- Claim C8, witness: two concrete invocations in different file systems and
destinations write identical artifact text. -/
theorem c8_emission_witness :
    fsGet (write_code [] "a.py" schemaC4 [] false).2 "a.py" =
      fsGet (write_code [("b.py", "x")] "c.py" schemaC4 ["http"] false).2 "c.py" :=
  (c8_deterministic_emission schemaC4 [] [("b.py", "x")] "a.py" "c.py" []
    ["http"] rfl rfl).2.2.1

/-- Claim C9: `write_code` refuses to overwrite an existing destination unless
explicitly permitted (`__init__.py` lines 131-132): on an existing filename
with `overwrite` left `False` it raises and leaves the file system untouched;
with `overwrite := true` it proceeds and writes the artifact. -/
theorem c9_overwrite_protection (fs : FileSys) (fn : String) (d : Schema)
    (hs : Handlers) :
    (fsExists fs fn = true →
      (write_code fs fn d hs false).1 =
          .error (jsonSchemaExc ("file " ++ fn ++ " already exists") []) ∧
      (write_code fs fn d hs false).2 = fs) ∧
    (write_code fs fn d hs true).1 = .ok (entryName d) ∧
    (write_code fs fn d hs true).2 = fsSet fs fn (serializedSource d) := by
  refine ⟨fun hex => ?_, ?_, ?_⟩
  · constructor <;> simp [write_code, hex]
  · simp [write_code]
  · simp [write_code]

/-- Claim C9, witness: on a file system where `validator.py` exists, the
refusal fires and nothing is written. -/
theorem c9_overwrite_witness :
    (write_code fsC "validator.py" schemaC2 [] false).1 =
        .error (jsonSchemaExc "file validator.py already exists" []) ∧
    (write_code fsC "validator.py" schemaC2 [] false).2 = fsC :=
  (c9_overwrite_protection fsC "validator.py" schemaC2 []).1 rfl

/-- Claim C10: the refusal to overwrite is atomic and early.  The raised
exception has Python class `JsonSchemaException` — the same class validation
failures carry — and it is raised before reference resolution or code
generation is attempted: the outcome is entirely independent of the schema
definition and the handlers, and the existing file system (in particular the
existing file's contents) is left unmodified. -/
theorem c10_atomic_early_failure (fs : FileSys) (fn : String) (d d2 : Schema)
    (hs hs2 : Handlers) (hex : fsExists fs fn = true) :
    (write_code fs fn d hs false).1 =
        .error (jsonSchemaExc ("file " ++ fn ++ " already exists") []) ∧
    (jsonSchemaExc ("file " ++ fn ++ " already exists") []).excType =
        "JsonSchemaException" ∧
    (∀ t path, (jsonSchemaExc ("must be " ++ typeName t) path).excType =
        (jsonSchemaExc ("file " ++ fn ++ " already exists") []).excType) ∧
    (write_code fs fn d hs false).2 = fs ∧
    write_code fs fn d hs false = write_code fs fn d2 hs2 false := by
  refine ⟨?_, rfl, fun t path => rfl, ?_, ?_⟩ <;> simp [write_code, hex]

/-- Claim C10, witness: with `validator.py` present, the failure leaves the
file system unchanged and does not depend on the schema or handlers. -/
theorem c10_atomic_witness :
    write_code fsC "validator.py" schemaC3 ["http"] false =
      write_code fsC "validator.py" schemaC4 [] false :=
  (c10_atomic_early_failure fsC "validator.py" schemaC3 schemaC4 ["http"] []
    rfl).2.2.2.2
